import Mathlib

/-!
Verification of the skill validation-and-packaging pipeline
(`scripts/quick_validate.js` and `scripts/package_skill.js`).

The JavaScript source is shallowly embedded: strings are Lean `String`s,
JS objects used as string-to-string maps become association lists with
last-write-wins update, and the file system is an explicit association
list from paths to file entries that every operation threads through.
JS regular-expression and string-method behaviour is modelled by
executable character-list functions defined below.
-/

namespace SkillTool

/-! ## Generic list helpers (models of JS string primitives) -/

/-- `isPre p l` holds when `p` is a leading segment of `l`.
Models `String.prototype.startsWith` on character lists. -/
def isPre : List Char → List Char → Bool
  | [], _ => true
  | _ :: _, [] => false
  | a :: as, b :: bs => a = b && isPre as bs

/-- Models `String.prototype.endsWith` via reversal. -/
def isSuf (p l : List Char) : Bool := isPre p.reverse l.reverse

/-- Split `l` at the first occurrence of `pat`: returns the part before
and the part after. Models the anchor point of a lazy regex match and
`String.prototype.includes`. -/
def splitFirst (pat : List Char) : List Char → Option (List Char × List Char)
  | [] => if isPre pat [] then some ([], []) else none
  | c :: cs =>
    if isPre pat (c :: cs) then some ([], (c :: cs).drop pat.length)
    else
      match splitFirst pat cs with
      | some (pre, post) => some (c :: pre, post)
      | none => none

/-- Models `String.prototype.split` with a single-character separator. -/
def splitAll (sep : Char) : List Char → List (List Char)
  | [] => [[]]
  | c :: cs =>
    let r := splitAll sep cs
    if c = sep then [] :: r
    else
      match r with
      | h :: t => (c :: h) :: t
      | [] => [[c]]

/-- Models `Array.prototype.join` with a single-character separator. -/
def joinWith (sep : Char) : List (List Char) → List Char
  | [] => []
  | [x] => x
  | x :: y :: t => x ++ sep :: joinWith sep (y :: t)

/-- Association-list lookup; models reading a property of a JS object. -/
def lookupKV {α : Type} : List (String × α) → String → Option α
  | [], _ => none
  | (k, v) :: rest, key => if k = key then some v else lookupKV rest key

/-- Association-list update; models `obj[key] = value` (the last write
to a key wins, first-insertion order of distinct keys is kept). -/
def setKV {α : Type} : List (String × α) → String → α → List (String × α)
  | [], key, v => [(key, v)]
  | (k, w) :: rest, key, v =>
    if k = key then (key, v) :: rest else (k, w) :: setKV rest key v

/-- The whitespace class of `String.prototype.trim` (ASCII part). -/
def isJsSpace (c : Char) : Bool :=
  c = ' ' || c = '\t' || c = '\n' || c = '\r' || c = '\x0b' || c = '\x0c'

/-- Models `String.prototype.trim`: strip leading and trailing
whitespace. -/
def trimChars (l : List Char) : List Char :=
  ((l.dropWhile isJsSpace).reverse.dropWhile isJsSpace).reverse

/-- Models `Array.prototype.join(', ')`. -/
def joinComma : List String → String
  | [] => ""
  | [x] => x
  | x :: y :: t => x ++ ", " ++ joinComma (y :: t)

/-- Insertion into a sorted list of strings. -/
def insertSorted (s : String) : List String → List String
  | [] => [s]
  | t :: ts => if s ≤ t then s :: t :: ts else t :: insertSorted s ts

/-- Lexicographic sort; models `Array.prototype.sort()` on strings. -/
def sortStrings : List String → List String
  | [] => []
  | s :: ss => insertSorted s (sortStrings ss)

/-! ## Header parsing (`quick_validate.js` lines 29–65) -/

/-- Strips one matching pair of wrapping double or single quotes,
exactly as `value.slice(1, -1)` does (lines 59–61): a value that is a
single quote character satisfies both `startsWith` and `endsWith` and
becomes the empty string. -/
def stripQuotes (value : String) : String :=
  if (isPre ['"'] value.toList && isSuf ['"'] value.toList)
      || (isPre ['\''] value.toList && isSuf ['\''] value.toList) then
    String.mk (value.toList.drop 1).dropLast
  else value

/-- One line of the frontmatter loop (lines 49–65): skip blank and `#`
comment lines, ignore lines without a colon, otherwise split on the
first colon (`line.split(':')` with the tail rejoined), trim both
parts, strip quotes, and store. -/
def headerStep (fm : List (String × String)) (line : List Char) : List (String × String) :=
  if (trimChars line).isEmpty || isPre ['#'] (trimChars line) then fm
  else if 2 ≤ (splitAll ':' line).length then
    setKV fm (String.mk (trimChars ((splitAll ':' line).headD [])))
      (stripQuotes (String.mk (trimChars (joinWith ':' ((splitAll ':' line).drop 1)))))
  else fm

/-- The frontmatter accumulated over all lines (lines 46–65). -/
def parseHeader (fmText : String) : List (String × String) :=
  (splitAll '\n' fmText.toList).foldl headerStep []

/-- The regex of line 36 (anchored `---` newline, lazy group, newline
`---`): succeeds when the
content starts with the four characters `---\n` and the remainder
contains `\n---`; the lazy group captures everything before the first
such occurrence.  Returns the capture and the text after the match. -/
def delimiterSplit (content : String) : Option (String × String) :=
  if isPre ("---\n".toList) content.toList then
    match splitFirst ("\n---".toList) (content.toList.drop 4) with
    | some (pre, post) => some (String.mk pre, String.mk post)
    | none => none
  else none

/-! ## Validation (`quick_validate.js` lines 12–111) -/

/-- The `{ valid, message }` object returned by `validateSkill`. -/
structure ValidationResult where
  valid : Bool
  message : String
deriving Repr, DecidableEq

/-- The `ALLOWED_PROPERTIES` set (line 68). -/
def ALLOWED_PROPERTIES : List String :=
  ["name", "description", "license", "allowed-tools", "metadata"]

/-- `keys.filter(k => !ALLOWED_PROPERTIES.has(k))` (line 72). -/
def unexpectedKeysOf (fm : List (String × String)) : List String :=
  (fm.map Prod.fst).filter (fun k => !(ALLOWED_PROPERTIES.contains k))

/-- `frontmatter['name']`, with JS truthiness in mind: a missing key
(`undefined`) and the empty string are the only falsy string reads, so
both are collapsed to `""`. -/
def nameValOf (fm : List (String × String)) : String :=
  (lookupKV fm "name").getD ""

/-- `frontmatter['description']`, same convention as `nameValOf`. -/
def descValOf (fm : List (String × String)) : String :=
  (lookupKV fm "description").getD ""

/-- The character class `[a-z0-9-]` of the name regex (line 91). -/
def isNameChar (c : Char) : Bool :=
  ('a' ≤ c && c ≤ 'z') || ('0' ≤ c && c ≤ '9') || c = '-'

/-- `/^[a-z0-9-]+$/.test(name)`: nonempty and every character in the
class. -/
def matchesNamePattern (s : String) : Bool :=
  !s.toList.isEmpty && s.toList.all isNameChar

/-- `name.includes('--')` (line 94). -/
def containsSub (s pat : String) : Bool :=
  (splitFirst pat.toList s.toList).isSome

/-- `description.includes('<')` for a single character (line 103). -/
def includesChar (s : String) (c : Char) : Bool :=
  s.toList.contains c

/-- Failure message of line 77. -/
def unexpectedMsg (unexpectedKeys : List String) : String :=
  "Unexpected key(s) in SKILL.md frontmatter: "
    ++ joinComma (sortStrings unexpectedKeys)
    ++ ". Allowed properties are: "
    ++ joinComma (sortStrings ALLOWED_PROPERTIES)

/-- Failure message of line 92. -/
def nameShouldMsg (name : String) : String :=
  "Name '" ++ name ++ "' should be hyphen-case (lowercase letters, digits, and hyphens only)"

/-- Failure message of line 95. -/
def nameHyphenMsg (name : String) : String :=
  "Name '" ++ name ++ "' cannot start/end with hyphen or contain consecutive hyphens"

/-- Failure message of line 98. -/
def nameTooLongMsg (name : String) : String :=
  "Name is too long (" ++ toString name.length ++ " characters). Maximum is 64 characters."

/-- Failure message of line 107. -/
def descTooLongMsg (d : String) : String :=
  "Description is too long (" ++ toString d.length ++ " characters). Maximum is 1024 characters."

/-- Rules 4–11 of the validator (lines 67–110), applied to a parsed
frontmatter.  `nameValOf fm = ""` renders `!frontmatter['name']`
(missing key or empty value), and likewise for the description. -/
def validateHeader (fm : List (String × String)) : ValidationResult :=
  if unexpectedKeysOf fm ≠ [] then
    ⟨false, unexpectedMsg (unexpectedKeysOf fm)⟩
  else if nameValOf fm = "" then
    ⟨false, "Missing 'name' in frontmatter"⟩
  else if descValOf fm = "" then
    ⟨false, "Missing 'description' in frontmatter"⟩
  else if !(matchesNamePattern (nameValOf fm)) then
    ⟨false, nameShouldMsg (nameValOf fm)⟩
  else if isPre ['-'] (nameValOf fm).toList || isSuf ['-'] (nameValOf fm).toList
      || containsSub (nameValOf fm) "--" then
    ⟨false, nameHyphenMsg (nameValOf fm)⟩
  else if 64 < (nameValOf fm).length then
    ⟨false, nameTooLongMsg (nameValOf fm)⟩
  else if includesChar (descValOf fm) '<' || includesChar (descValOf fm) '>' then
    ⟨false, "Description cannot contain angle brackets (< or >)"⟩
  else if 1024 < (descValOf fm).length then
    ⟨false, descTooLongMsg (descValOf fm)⟩
  else
    ⟨true, "Skill is valid!"⟩

/-- Lines 29–110: the part of `validateSkill` that operates on the text
of `SKILL.md` once it has been read. -/
def validateContent (content : String) : ValidationResult :=
  if !(isPre ("---".toList) content.toList) then
    ⟨false, "No YAML frontmatter found"⟩
  else
    match delimiterSplit content with
    | none => ⟨false, "Invalid frontmatter format"⟩
    | some (fmText, _) => validateHeader (parseHeader fmText)

/-- What `validateSkill` can observe about `SKILL.md`: the file is
absent, present but unreadable (the `catch` of lines 25–27), or
readable with some content. -/
inductive ManifestState where
  | absent
  | unreadable (errMsg : String)
  | readable (content : String)
deriving Repr, DecidableEq

/-- `validateSkill` (lines 12–111) as a function of the manifest state. -/
def validateSkill : ManifestState → ValidationResult
  | .absent => ⟨false, "SKILL.md not found"⟩
  | .unreadable e => ⟨false, "Could not read SKILL.md: " ++ e⟩
  | .readable content => validateContent content

/-! ## File system model and `packageSkill` (`package_skill.js`) -/

/-- A file on disk: readable with some content, or present but failing
to read (the error message is what `e.message` would carry). -/
inductive FileEntry where
  | readable (content : String)
  | unreadable (errMsg : String)
deriving Repr, DecidableEq

/-- The world visible to the scripts: existing directories, files, and
the invoking process's current working directory. -/
structure World where
  dirs : List String
  files : List (String × FileEntry)
  cwd : String
deriving Repr, DecidableEq

/-- What `validateSkill` observes for the manifest `SKILL.md` inside a
skill directory (`fs.existsSync` on line 17 and `readFile` on line 24). -/
def manifestStateOf (w : World) (skillPath : String) : ManifestState :=
  match lookupKV w.files (skillPath ++ "/SKILL.md") with
  | none => .absent
  | some (.unreadable e) => .unreadable e
  | some (.readable c) => .readable c

/-- `validateSkill` as a state-passing operation: it reads the world
and returns it untouched (the source performs no `fs` write). -/
def validateSkillRun (w : World) (skillPath : String) : ValidationResult × World :=
  (validateSkill (manifestStateOf w skillPath), w)

/-- `path.resolve`: an absolute path is kept, a relative one is joined
to the current working directory (no `.`/`..` normalisation is needed
by any claim). -/
def resolvePath (cwd p : String) : String :=
  if isPre ['/'] p.toList then p else cwd ++ "/" ++ p

/-- `path.basename`: the last path segment, ignoring trailing slashes. -/
def basename (p : String) : String :=
  String.mk ((splitAll '/' ((p.toList.reverse.dropWhile (· = '/')).reverse)).getLastD [])

/-- Every initial segment of a path, longest last (`"/a/b"` yields
`["/a", "/a/b"]`): the directories `fs.mkdir` with `recursive: true`
guarantees to exist afterwards. -/
def prefixJoins : List String → List String
  | [] => []
  | [x] => [x]
  | x :: y :: t => x :: (prefixJoins (y :: t)).map (fun r => x ++ "/" ++ r)

/-- The ancestor paths created by a recursive mkdir of `p`. -/
def ancestorPaths (p : String) : List String :=
  (prefixJoins ((splitAll '/' p.toList).map String.mk)).filter (fun q => !(q == ""))

/-- `await mkdir(outputPath, { recursive: true })` (line 58): creates
the directory and any missing ancestors. -/
def mkdirRecursive (w : World) (p : String) : World :=
  { w with dirs := w.dirs ++ (ancestorPaths p).filter (fun q => !(w.dirs.contains q)) }

/-- Return value of `packageSkill`: `null` with the first error line
printed, or the artifact path. -/
inductive PackageOutcome where
  | failure (report : String)
  | success (artifact : String)
deriving Repr, DecidableEq

/-- `packageSkill` (lines 22–95).  `zipErr` models the outcome of the
external `zip` process (line 86): `none` for success, `some e` for a
failure with message `e`.  On success the archiver leaves an archive of
the skill directory at the artifact path; its internal layout is the
external archiver's contract and is modelled as an opaque content tag. -/
def packageSkill (w : World) (zipErr : Option String) (skillPathArg : String)
    (outputDir : Option String) : PackageOutcome × World :=
  let skillPath := resolvePath w.cwd skillPathArg
  if !(w.dirs.contains skillPath || (lookupKV w.files skillPath).isSome) then
    (.failure ("❌ Error: Skill folder not found: " ++ skillPath), w)
  else if !(w.dirs.contains skillPath) then
    (.failure ("❌ Error: Path is not a directory: " ++ skillPath), w)
  else if (lookupKV w.files (skillPath ++ "/SKILL.md")).isNone then
    (.failure ("❌ Error: SKILL.md not found in " ++ skillPath), w)
  else
    let res := validateSkill (manifestStateOf w skillPath)
    if !res.valid then
      (.failure ("❌ Validation failed: " ++ res.message), w)
    else
      let outputPath :=
        match outputDir with
        | some d => resolvePath w.cwd d
        | none => w.cwd
      let w1 :=
        match outputDir with
        | some _ => mkdirRecursive w outputPath
        | none => w
      let skillName := basename skillPath
      let skillFilename := outputPath ++ "/" ++ skillName ++ ".skill"
      match zipErr with
      | none =>
        let archived := setKV w1.files skillFilename (.readable ("zip-archive-of:" ++ skillPath))
        (.success skillFilename, { w1 with files := archived })
      | some e =>
        (.failure ("❌ Error creating .skill file: " ++ e), w1)

/-! ## Specification-side definitions

These render the spec's own words (§4.1, §4.2, §8) and are compared
against the code-derived definitions above; they deliberately follow a
different computational structure. -/

/-- Spec §4.1: the position of the first colon — everything before is
the field name, everything after the field value. -/
def findColon : List Char → Option (List Char × List Char)
  | [] => none
  | c :: cs =>
    if c = ':' then some ([], cs)
    else
      match findColon cs with
      | some (a, b) => some (c :: a, b)
      | none => none

/-- Spec §4.1, one header line: blank and `#`-comment lines are
skipped, lines with no colon silently ignored, all others split on the
first colon with both parts trimmed and wrapped quotes stripped. -/
def headerStepSpec (fm : List (String × String)) (line : List Char) : List (String × String) :=
  if trimChars line = [] then fm
  else if isPre ['#'] (trimChars line) then fm
  else
    match findColon line with
    | none => fm
    | some (k, v) =>
      setKV fm (String.mk (trimChars k)) (stripQuotes (String.mk (trimChars v)))

/-- Spec §4.1: the header block parsed line by line into a flat
mapping where the last occurrence of a field name wins. -/
def headerParserSpec (fmText : String) : List (String × String) :=
  (splitAll '\n' fmText.toList).foldl headerStepSpec []

/-- Spec-side reading of `two consecutive hyphens occur in the string`. -/
def hasDoubleHyphenSpec : List Char → Bool
  | a :: b :: t => (a = '-' && b = '-') || hasDoubleHyphenSpec (b :: t)
  | _ => false

/-- Spec §8 constraint on the `name` value: matches the anchored
pattern `[a-z0-9-]+`, no leading or trailing hyphen, no two
consecutive hyphens, and at most 64 characters. -/
def specNameOk (nv : String) : Prop :=
  nv.toList ≠ []
  ∧ (∀ c ∈ nv.toList, ('a' ≤ c ∧ c ≤ 'z') ∨ ('0' ≤ c ∧ c ≤ '9') ∨ c = '-')
  ∧ nv.toList.head? ≠ some '-'
  ∧ nv.toList.getLast? ≠ some '-'
  ∧ hasDoubleHyphenSpec nv.toList = false
  ∧ nv.toList.length ≤ 64

instance (nv : String) : Decidable (specNameOk nv) := by
  unfold specNameOk; infer_instance

/-- Spec §8 constraint on the `description` value: neither angle
bracket occurs and its length is at most 1024. -/
def specDescOk (dv : String) : Prop :=
  '<' ∉ dv.toList ∧ '>' ∉ dv.toList ∧ dv.toList.length ≤ 1024

instance (dv : String) : Decidable (specDescOk dv) := by
  unfold specDescOk; infer_instance

/-- The header reachable from a manifest state: present exactly when
the content parses per §4.1. -/
def headerOf : ManifestState → Option (List (String × String))
  | .readable content =>
    (match delimiterSplit content with
     | some (fmText, _) => some (parseHeader fmText)
     | none => none)
  | _ => none

/-- Spec §4.2 rule 1 judged on its own: the manifest must exist. -/
def rule1Outcome : ManifestState → Option ValidationResult
  | .absent => some ⟨false, "SKILL.md not found"⟩
  | _ => none

/-- Spec §4.2 rule 2 judged on its own: the manifest must be readable. -/
def rule2Outcome : ManifestState → Option ValidationResult
  | .unreadable e => some ⟨false, "Could not read SKILL.md: " ++ e⟩
  | _ => none

/-- Spec §4.2 rule 3 judged on its own: the parse-stage failure, if
any. -/
def rule3Outcome : ManifestState → Option ValidationResult
  | .readable content =>
    if !(isPre ("---".toList) content.toList) then
      some ⟨false, "No YAML frontmatter found"⟩
    else if (delimiterSplit content).isNone then
      some ⟨false, "Invalid frontmatter format"⟩
    else none
  | _ => none

/-- Spec §4.2: the twelve rules in their fixed order, each judged
independently — entry `i` is `some failure` precisely when rule `i`'s
own condition is violated. -/
def ruleOutcomes (m : ManifestState) : List (Option ValidationResult) :=
  [ rule1Outcome m,
    rule2Outcome m,
    rule3Outcome m,
    (headerOf m).bind (fun fm =>
      if unexpectedKeysOf fm ≠ [] then some ⟨false, unexpectedMsg (unexpectedKeysOf fm)⟩ else none),
    (headerOf m).bind (fun fm =>
      if nameValOf fm = "" then some ⟨false, "Missing 'name' in frontmatter"⟩ else none),
    (headerOf m).bind (fun fm =>
      if descValOf fm = "" then some ⟨false, "Missing 'description' in frontmatter"⟩ else none),
    (headerOf m).bind (fun fm =>
      if nameValOf fm ≠ "" ∧ !(matchesNamePattern (nameValOf fm)) then
        some ⟨false, nameShouldMsg (nameValOf fm)⟩ else none),
    (headerOf m).bind (fun fm =>
      if nameValOf fm ≠ "" ∧ (isPre ['-'] (nameValOf fm).toList
          || isSuf ['-'] (nameValOf fm).toList || containsSub (nameValOf fm) "--") then
        some ⟨false, nameHyphenMsg (nameValOf fm)⟩ else none),
    (headerOf m).bind (fun fm =>
      if nameValOf fm ≠ "" ∧ 64 < (nameValOf fm).length then
        some ⟨false, nameTooLongMsg (nameValOf fm)⟩ else none),
    (headerOf m).bind (fun fm =>
      if descValOf fm ≠ "" ∧ (includesChar (descValOf fm) '<' || includesChar (descValOf fm) '>') then
        some ⟨false, "Description cannot contain angle brackets (< or >)"⟩ else none),
    (headerOf m).bind (fun fm =>
      if descValOf fm ≠ "" ∧ 1024 < (descValOf fm).length then
        some ⟨false, descTooLongMsg (descValOf fm)⟩ else none) ]

/-- Spec §4.2: short-circuit evaluation — the first violated rule's
failure, or success when no rule is violated. -/
def firstViolation (m : ManifestState) : ValidationResult :=
  (((ruleOutcomes m).filterMap id).head?).getD ⟨true, "Skill is valid!"⟩

/-! ## Basic lemmas about the helpers -/

theorem strAppend_assoc (a b c : String) : (a ++ b) ++ c = a ++ (b ++ c) := by
  apply String.ext
  simp [String.data_append, List.append_assoc]

@[simp]
theorem isPre_nil (l : List Char) : isPre [] l = true := by
  cases l <;> rfl

theorem isPre_append (p t : List Char) : isPre p (p ++ t) = true := by
  induction p with
  | nil => simp
  | cons a as ih => simp [isPre, ih]

theorem eq_append_drop_of_isPre (p l : List Char) (h : isPre p l = true) :
    l = p ++ l.drop p.length := by
  induction p generalizing l with
  | nil => simp
  | cons a as ih =>
    cases l with
    | nil => simp [isPre] at h
    | cons b bs =>
      simp only [isPre, Bool.and_eq_true, decide_eq_true_eq] at h
      obtain ⟨rfl, h2⟩ := h
      simpa using ih bs h2

theorem isPre_mono (p q l : List Char) (h : isPre (p ++ q) l = true) :
    isPre p l = true := by
  induction p generalizing l with
  | nil => simp
  | cons a as ih =>
    cases l with
    | nil => simp [isPre] at h
    | cons b bs =>
      simp only [List.cons_append, isPre, Bool.and_eq_true] at h ⊢
      exact ⟨h.1, ih bs h.2⟩

theorem splitFirst_sound (pat : List Char) :
    ∀ l pre post, splitFirst pat l = some (pre, post) → l = pre ++ pat ++ post := by
  intro l
  induction l with
  | nil =>
    intro pre post h
    simp only [splitFirst] at h
    split at h
    · rename_i hp
      have : pat = [] := by
        cases pat with
        | nil => rfl
        | cons a as => simp [isPre] at hp
      simp only [Option.some.injEq, Prod.mk.injEq] at h
      obtain ⟨rfl, rfl⟩ := h
      simp [this]
    · exact absurd h (by simp)
  | cons c cs ih =>
    intro pre post h
    simp only [splitFirst] at h
    split at h
    · rename_i hp
      simp only [Option.some.injEq, Prod.mk.injEq] at h
      obtain ⟨rfl, rfl⟩ := h
      simpa using eq_append_drop_of_isPre pat (c :: cs) hp
    · rename_i hp
      cases hs : splitFirst pat cs with
      | none => rw [hs] at h; exact absurd h (by simp)
      | some pr =>
        obtain ⟨pre', post'⟩ := pr
        rw [hs] at h
        simp only [Option.some.injEq, Prod.mk.injEq] at h
        obtain ⟨rfl, rfl⟩ := h
        simpa using ih pre' post' hs

theorem splitFirst_isSome_of_isPre (pat l : List Char) (h : isPre pat l = true) :
    (splitFirst pat l).isSome = true := by
  cases l with
  | nil => simp [splitFirst, h]
  | cons c cs => simp [splitFirst, h]

theorem splitFirst_isSome_of_decomp (pat a b : List Char) :
    (splitFirst pat (a ++ pat ++ b)).isSome = true := by
  induction a with
  | nil =>
    apply splitFirst_isSome_of_isPre
    simpa using isPre_append pat b
  | cons x xs ih =>
    show (splitFirst pat (x :: (xs ++ pat ++ b))).isSome = true
    simp only [splitFirst]
    split
    · simp
    · cases hs : splitFirst pat (xs ++ pat ++ b) with
      | none => rw [hs] at ih; simp at ih
      | some pr => simp

theorem splitFirst_min (pat : List Char) :
    ∀ l pre post, splitFirst pat l = some (pre, post) →
      ∀ a b, l = a ++ pat ++ b → pre.length ≤ a.length := by
  intro l
  induction l with
  | nil =>
    intro pre post h a b _
    simp only [splitFirst] at h
    split at h
    · simp only [Option.some.injEq, Prod.mk.injEq] at h
      obtain ⟨rfl, rfl⟩ := h
      simp
    · exact absurd h (by simp)
  | cons c cs ih =>
    intro pre post h a b hd
    simp only [splitFirst] at h
    split at h
    · simp only [Option.some.injEq, Prod.mk.injEq] at h
      obtain ⟨rfl, rfl⟩ := h
      simp
    · rename_i hp
      cases hs : splitFirst pat cs with
      | none => rw [hs] at h; exact absurd h (by simp)
      | some pr =>
        obtain ⟨pre', post'⟩ := pr
        rw [hs] at h
        simp only [Option.some.injEq, Prod.mk.injEq] at h
        obtain ⟨rfl, rfl⟩ := h
        cases a with
        | nil =>
          exfalso
          simp only [List.nil_append] at hd
          rw [hd] at hp
          exact hp (isPre_append pat b)
        | cons x xs =>
          simp only [List.cons_append, List.cons.injEq] at hd
          obtain ⟨rfl, hd2⟩ := hd
          simpa using ih pre' post' hs xs b hd2

theorem lookupKV_setKV_self {α : Type} (l : List (String × α)) (k : String) (v : α) :
    lookupKV (setKV l k v) k = some v := by
  induction l with
  | nil => simp [setKV, lookupKV]
  | cons p rest ih =>
    obtain ⟨k', w⟩ := p
    by_cases h : k' = k
    · subst h; simp [setKV, lookupKV]
    · simp [setKV, lookupKV, h, ih]

theorem lookupKV_setKV_other {α : Type} (l : List (String × α)) (k k' : String) (v : α)
    (h : k' ≠ k) : lookupKV (setKV l k v) k' = lookupKV l k' := by
  induction l with
  | nil => simp [setKV, lookupKV, Ne.symm h]
  | cons p rest ih =>
    obtain ⟨k0, w⟩ := p
    by_cases h0 : k0 = k
    · subst h0
      simp [setKV, lookupKV, Ne.symm h]
    · simp only [setKV, if_neg h0, lookupKV]
      by_cases h1 : k0 = k'
      · simp [h1]
      · simp [h1, ih]

theorem contains_eq_true_iff_mem (l : List String) (a : String) :
    l.contains a = true ↔ a ∈ l := by
  simp [List.contains, List.elem_iff]

/-! ## Message machinery: results of different rules are distinct -/

theorem ne_of_take2 {s t : String} (h : s.data.take 2 ≠ t.data.take 2) : s ≠ t :=
  fun he => h (by rw [he])

theorem result_ne_of_msg_take2 {r1 r2 : ValidationResult}
    (h : r1.message.data.take 2 ≠ r2.message.data.take 2) : r1 ≠ r2 :=
  fun he => h (by rw [he])

theorem take2_lit_append (p x : String) (c1 c2 : Char) (tl : List Char)
    (hp : p.data = c1 :: c2 :: tl) : (p ++ x).data.take 2 = [c1, c2] := by
  rw [String.data_append, hp]
  rfl

theorem unexpectedMsg_take2 (u : List String) :
    (unexpectedMsg u).data.take 2 = ['U', 'n'] := by
  unfold unexpectedMsg
  rw [strAppend_assoc, strAppend_assoc]
  exact take2_lit_append _ _ 'U' 'n' _ rfl

theorem nameShouldMsg_take2 (n : String) :
    (nameShouldMsg n).data.take 2 = ['N', 'a'] := by
  unfold nameShouldMsg
  rw [strAppend_assoc]
  exact take2_lit_append _ _ 'N' 'a' _ rfl

theorem nameHyphenMsg_take2 (n : String) :
    (nameHyphenMsg n).data.take 2 = ['N', 'a'] := by
  unfold nameHyphenMsg
  rw [strAppend_assoc]
  exact take2_lit_append _ _ 'N' 'a' _ rfl

theorem nameTooLongMsg_take2 (n : String) :
    (nameTooLongMsg n).data.take 2 = ['N', 'a'] := by
  unfold nameTooLongMsg
  rw [strAppend_assoc]
  exact take2_lit_append _ _ 'N' 'a' _ rfl

theorem descTooLongMsg_take2 (d : String) :
    (descTooLongMsg d).data.take 2 = ['D', 'e'] := by
  unfold descTooLongMsg
  rw [strAppend_assoc]
  exact take2_lit_append _ _ 'D' 'e' _ rfl

theorem readErrMsg_take2 (e : String) :
    ("Could not read SKILL.md: " ++ e).data.take 2 = ['C', 'o'] :=
  take2_lit_append _ _ 'C' 'o' _ rfl

/-! ## Characterisation of the validator's branches -/

theorem validateHeader_missingName_iff (fm : List (String × String)) :
    validateHeader fm = ⟨false, "Missing 'name' in frontmatter"⟩ ↔
      unexpectedKeysOf fm = [] ∧ nameValOf fm = "" := by
  unfold validateHeader
  split_ifs with h1 h2 h3 h4 h5 h6 h7 h8
  · exact iff_of_false
      (result_ne_of_msg_take2 (by rw [unexpectedMsg_take2]; decide))
      (fun hr => h1 hr.1)
  · exact iff_of_true rfl ⟨of_not_not h1, h2⟩
  · exact iff_of_false (by decide) (fun hr => h2 hr.2)
  · exact iff_of_false
      (result_ne_of_msg_take2 (by rw [nameShouldMsg_take2]; decide))
      (fun hr => h2 hr.2)
  · exact iff_of_false
      (result_ne_of_msg_take2 (by rw [nameHyphenMsg_take2]; decide))
      (fun hr => h2 hr.2)
  · exact iff_of_false
      (result_ne_of_msg_take2 (by rw [nameTooLongMsg_take2]; decide))
      (fun hr => h2 hr.2)
  · exact iff_of_false (by decide) (fun hr => h2 hr.2)
  · exact iff_of_false
      (result_ne_of_msg_take2 (by rw [descTooLongMsg_take2]; decide))
      (fun hr => h2 hr.2)
  · exact iff_of_false (by decide) (fun hr => h2 hr.2)

theorem validateHeader_missingDesc_iff (fm : List (String × String)) :
    validateHeader fm = ⟨false, "Missing 'description' in frontmatter"⟩ ↔
      unexpectedKeysOf fm = [] ∧ nameValOf fm ≠ "" ∧ descValOf fm = "" := by
  unfold validateHeader
  split_ifs with h1 h2 h3 h4 h5 h6 h7 h8
  · exact iff_of_false
      (result_ne_of_msg_take2 (by rw [unexpectedMsg_take2]; decide))
      (fun hr => h1 hr.1)
  · exact iff_of_false (by decide) (fun hr => hr.2.1 h2)
  · exact iff_of_true rfl ⟨of_not_not h1, h2, h3⟩
  · exact iff_of_false
      (result_ne_of_msg_take2 (by rw [nameShouldMsg_take2]; decide))
      (fun hr => h3 hr.2.2)
  · exact iff_of_false
      (result_ne_of_msg_take2 (by rw [nameHyphenMsg_take2]; decide))
      (fun hr => h3 hr.2.2)
  · exact iff_of_false
      (result_ne_of_msg_take2 (by rw [nameTooLongMsg_take2]; decide))
      (fun hr => h3 hr.2.2)
  · exact iff_of_false (by decide) (fun hr => h3 hr.2.2)
  · exact iff_of_false
      (result_ne_of_msg_take2 (by rw [descTooLongMsg_take2]; decide))
      (fun hr => h3 hr.2.2)
  · exact iff_of_false (by decide) (fun hr => h3 hr.2.2)

theorem validateHeader_ne_noYaml (fm : List (String × String)) :
    validateHeader fm ≠ ⟨false, "No YAML frontmatter found"⟩ := by
  unfold validateHeader
  split_ifs
  · exact result_ne_of_msg_take2 (by rw [unexpectedMsg_take2]; decide)
  · decide
  · decide
  · exact result_ne_of_msg_take2 (by rw [nameShouldMsg_take2]; decide)
  · exact result_ne_of_msg_take2 (by rw [nameHyphenMsg_take2]; decide)
  · exact result_ne_of_msg_take2 (by rw [nameTooLongMsg_take2]; decide)
  · decide
  · exact result_ne_of_msg_take2 (by rw [descTooLongMsg_take2]; decide)
  · decide

theorem validateHeader_ne_invalid (fm : List (String × String)) :
    validateHeader fm ≠ ⟨false, "Invalid frontmatter format"⟩ := by
  unfold validateHeader
  split_ifs
  · exact result_ne_of_msg_take2 (by rw [unexpectedMsg_take2]; decide)
  · decide
  · decide
  · exact result_ne_of_msg_take2 (by rw [nameShouldMsg_take2]; decide)
  · exact result_ne_of_msg_take2 (by rw [nameHyphenMsg_take2]; decide)
  · exact result_ne_of_msg_take2 (by rw [nameTooLongMsg_take2]; decide)
  · decide
  · exact result_ne_of_msg_take2 (by rw [descTooLongMsg_take2]; decide)
  · decide

theorem validateHeader_valid_iff (fm : List (String × String)) :
    (validateHeader fm).valid = true ↔
      unexpectedKeysOf fm = [] ∧ nameValOf fm ≠ "" ∧ descValOf fm ≠ ""
      ∧ matchesNamePattern (nameValOf fm) = true
      ∧ isPre ['-'] (nameValOf fm).toList = false
      ∧ isSuf ['-'] (nameValOf fm).toList = false
      ∧ containsSub (nameValOf fm) "--" = false
      ∧ (nameValOf fm).length ≤ 64
      ∧ includesChar (descValOf fm) '<' = false
      ∧ includesChar (descValOf fm) '>' = false
      ∧ (descValOf fm).length ≤ 1024 := by
  unfold validateHeader
  split_ifs with h1 h2 h3 h4 h5 h6 h7 h8
  · exact iff_of_false (by simp) (fun hr => h1 hr.1)
  · exact iff_of_false (by simp) (fun hr => hr.2.1 h2)
  · exact iff_of_false (by simp) (fun hr => hr.2.2.1 h3)
  · refine iff_of_false (by simp) (fun hr => ?_)
    rw [hr.2.2.2.1] at h4
    simp at h4
  · refine iff_of_false (by simp) (fun hr => ?_)
    obtain ⟨-, -, -, -, hp1, hp2, hp3, -⟩ := hr
    rw [hp1, hp2, hp3] at h5
    simp at h5
  · refine iff_of_false (by simp) (fun hr => ?_)
    have := hr.2.2.2.2.2.2.2.1
    omega
  · refine iff_of_false (by simp) (fun hr => ?_)
    obtain ⟨-, -, -, -, -, -, -, -, ha1, ha2, -⟩ := hr
    rw [ha1, ha2] at h7
    simp at h7
  · refine iff_of_false (by simp) (fun hr => ?_)
    have := hr.2.2.2.2.2.2.2.2.2.2
    omega
  · refine iff_of_true rfl ?_
    refine ⟨of_not_not h1, h2, h3, ?_, ?_, ?_, ?_, by omega, ?_, ?_, by omega⟩
    · simpa using h4
    · simp only [Bool.or_eq_true, not_or] at h5
      simpa using h5.1.1
    · simp only [Bool.or_eq_true, not_or] at h5
      simpa using h5.1.2
    · simp only [Bool.or_eq_true, not_or] at h5
      simpa using h5.2
    · simp only [Bool.or_eq_true, not_or] at h7
      simpa using h7.1
    · simp only [Bool.or_eq_true, not_or] at h7
      simpa using h7.2

/-- `delimiterSplit` succeeding forces the three-dash check of line 29
to pass. -/
theorem isPre3_of_delimiterSplit (content fmText rest : String)
    (h : delimiterSplit content = some (fmText, rest)) :
    isPre ("---".toList) content.toList = true := by
  have h4 : isPre ("---\n".toList) content.toList = true := by
    by_contra hc
    unfold delimiterSplit at h
    rw [if_neg hc] at h
    exact absurd h (by simp)
  refine isPre_mono ("---".toList) ['\n'] content.toList ?_
  have he : ("---".toList) ++ ['\n'] = "---\n".toList := by decide
  rw [he]
  exact h4

/-- When the frontmatter regex matches, `validateSkill`'s later work is
exactly `validateHeader` on the parsed capture. -/
theorem validateContent_of_delimiterSplit (content fmText rest : String)
    (h : delimiterSplit content = some (fmText, rest)) :
    validateContent content = validateHeader (parseHeader fmText) := by
  have h3 : isPre ['-', '-', '-'] content.data = true :=
    isPre3_of_delimiterSplit content fmText rest h
  simp [validateContent, h3, h]

theorem validateContent_eq_noYaml_of (content : String)
    (h3 : isPre ("---".toList) content.toList = false) :
    validateContent content = ⟨false, "No YAML frontmatter found"⟩ := by
  have h3d : isPre ['-', '-', '-'] content.data = false := h3
  simp [validateContent, h3d]

theorem validateContent_eq_invalid_of (content : String)
    (h3 : isPre ("---".toList) content.toList = true)
    (hd : delimiterSplit content = none) :
    validateContent content = ⟨false, "Invalid frontmatter format"⟩ := by
  have h3d : isPre ['-', '-', '-'] content.data = true := h3
  simp [validateContent, h3d, hd]

/-- The three mutually exclusive shapes a validation of manifest text
can take: missing delimiter, unmatched regex, or a parsed header. -/
theorem validateContent_cases (content : String) :
    (validateContent content = ⟨false, "No YAML frontmatter found"⟩
      ∧ isPre ("---".toList) content.toList = false)
    ∨ (validateContent content = ⟨false, "Invalid frontmatter format"⟩
      ∧ isPre ("---".toList) content.toList = true ∧ delimiterSplit content = none)
    ∨ (∃ fmText rest, delimiterSplit content = some (fmText, rest)
      ∧ validateContent content = validateHeader (parseHeader fmText)) := by
  by_cases h3 : isPre ("---".toList) content.toList = true
  · cases hd : delimiterSplit content with
    | none =>
      exact Or.inr (Or.inl ⟨validateContent_eq_invalid_of content h3 hd, h3, rfl⟩)
    | some pr =>
      obtain ⟨fmText, rest⟩ := pr
      exact Or.inr (Or.inr ⟨fmText, rest, rfl,
        validateContent_of_delimiterSplit content fmText rest hd⟩)
  · have h3' : isPre ("---".toList) content.toList = false := by
      cases hh : isPre ("---".toList) content.toList
      · rfl
      · exact absurd hh h3
    exact Or.inl ⟨validateContent_eq_noYaml_of content h3', h3'⟩

theorem delimiterSplit_eq_none_of_not_isPre3 (content : String)
    (h : isPre ("---".toList) content.toList = false) :
    delimiterSplit content = none := by
  cases hd : delimiterSplit content with
  | none => rfl
  | some pr =>
    obtain ⟨fmText, rest⟩ := pr
    rw [isPre3_of_delimiterSplit content fmText rest hd] at h
    exact absurd h (by simp)

theorem validateContent_noYaml_iff (content : String) :
    validateContent content = ⟨false, "No YAML frontmatter found"⟩ ↔
      isPre ("---".toList) content.toList = false := by
  rcases validateContent_cases content with ⟨hv, h3⟩ | ⟨hv, h3, _⟩ | ⟨fmText, rest, hd, hv⟩
  · exact iff_of_true hv h3
  · rw [hv, h3]
    exact iff_of_false (by decide) (by simp)
  · rw [hv, isPre3_of_delimiterSplit content fmText rest hd]
    exact iff_of_false (validateHeader_ne_noYaml _) (by simp)

theorem validateContent_invalid_iff (content : String) :
    validateContent content = ⟨false, "Invalid frontmatter format"⟩ ↔
      isPre ("---".toList) content.toList = true ∧ delimiterSplit content = none := by
  rcases validateContent_cases content with ⟨hv, h3⟩ | ⟨hv, h3, hd⟩ | ⟨fmText, rest, hd, hv⟩
  · rw [hv, h3]
    exact iff_of_false (by decide) (fun hr => by simp at hr)
  · exact iff_of_true hv ⟨h3, hd⟩
  · rw [hv, hd]
    exact iff_of_false (validateHeader_ne_invalid _) (fun hr => by simp at hr)

theorem validateContent_missingName_iff (content : String) :
    validateContent content = ⟨false, "Missing 'name' in frontmatter"⟩ ↔
      ∃ fmText rest, delimiterSplit content = some (fmText, rest)
        ∧ unexpectedKeysOf (parseHeader fmText) = []
        ∧ nameValOf (parseHeader fmText) = "" := by
  rcases validateContent_cases content with ⟨hv, h3⟩ | ⟨hv, h3, hd⟩ | ⟨fmText, rest, hd, hv⟩
  · rw [hv]
    refine iff_of_false (by decide) (fun hr => ?_)
    obtain ⟨f, r, hsome, -⟩ := hr
    rw [delimiterSplit_eq_none_of_not_isPre3 content h3] at hsome
    exact absurd hsome (by simp)
  · rw [hv]
    refine iff_of_false (by decide) (fun hr => ?_)
    obtain ⟨f, r, hsome, -⟩ := hr
    rw [hd] at hsome
    exact absurd hsome (by simp)
  · rw [hv, validateHeader_missingName_iff]
    constructor
    · intro hc
      exact ⟨fmText, rest, hd, hc.1, hc.2⟩
    · intro hr
      obtain ⟨f, r, hsome, hu, hn⟩ := hr
      rw [hd] at hsome
      simp only [Option.some.injEq, Prod.mk.injEq] at hsome
      obtain ⟨rfl, rfl⟩ := hsome
      exact ⟨hu, hn⟩

theorem validateContent_missingDesc_iff (content : String) :
    validateContent content = ⟨false, "Missing 'description' in frontmatter"⟩ ↔
      ∃ fmText rest, delimiterSplit content = some (fmText, rest)
        ∧ unexpectedKeysOf (parseHeader fmText) = []
        ∧ nameValOf (parseHeader fmText) ≠ ""
        ∧ descValOf (parseHeader fmText) = "" := by
  rcases validateContent_cases content with ⟨hv, h3⟩ | ⟨hv, h3, hd⟩ | ⟨fmText, rest, hd, hv⟩
  · rw [hv]
    refine iff_of_false (by decide) (fun hr => ?_)
    obtain ⟨f, r, hsome, -⟩ := hr
    rw [delimiterSplit_eq_none_of_not_isPre3 content h3] at hsome
    exact absurd hsome (by simp)
  · rw [hv]
    refine iff_of_false (by decide) (fun hr => ?_)
    obtain ⟨f, r, hsome, -⟩ := hr
    rw [hd] at hsome
    exact absurd hsome (by simp)
  · rw [hv, validateHeader_missingDesc_iff]
    constructor
    · intro hc
      exact ⟨fmText, rest, hd, hc.1, hc.2.1, hc.2.2⟩
    · intro hr
      obtain ⟨f, r, hsome, hu, hn, hde⟩ := hr
      rw [hd] at hsome
      simp only [Option.some.injEq, Prod.mk.injEq] at hsome
      obtain ⟨rfl, rfl⟩ := hsome
      exact ⟨hu, hn, hde⟩

/-! ## Bridges between the code-side checks and the spec's wording -/

theorem splitFirst_isSome_iff (pat l : List Char) :
    (splitFirst pat l).isSome = true ↔ ∃ a b, l = a ++ pat ++ b := by
  constructor
  · intro h
    cases hs : splitFirst pat l with
    | none => rw [hs] at h; simp at h
    | some pr =>
      obtain ⟨pre, post⟩ := pr
      exact ⟨pre, post, splitFirst_sound pat l pre post hs⟩
  · rintro ⟨a, b, rfl⟩
    exact splitFirst_isSome_of_decomp pat a b

theorem hasDoubleHyphenSpec_iff (l : List Char) :
    hasDoubleHyphenSpec l = true ↔ ∃ a b, l = a ++ '-' :: '-' :: b := by
  induction l with
  | nil =>
    refine iff_of_false (by simp [hasDoubleHyphenSpec]) ?_
    rintro ⟨a, b, h⟩
    have := congrArg List.length h
    simp at this
    omega
  | cons c cs ih =>
    cases cs with
    | nil =>
      refine iff_of_false (by simp [hasDoubleHyphenSpec]) ?_
      rintro ⟨a, b, h⟩
      have := congrArg List.length h
      simp at this
      omega
    | cons d t =>
      constructor
      · intro h
        simp only [hasDoubleHyphenSpec, Bool.or_eq_true, Bool.and_eq_true,
          decide_eq_true_eq] at h
        rcases h with ⟨rfl, rfl⟩ | h
        · exact ⟨[], t, rfl⟩
        · obtain ⟨a, b, hab⟩ := ih.mp h
          exact ⟨c :: a, b, by rw [List.cons_append, ← hab]⟩
      · rintro ⟨a, b, hab⟩
        cases a with
        | nil =>
          simp only [List.nil_append, List.cons.injEq] at hab
          obtain ⟨rfl, rfl, rfl⟩ := hab
          simp [hasDoubleHyphenSpec]
        | cons x xs =>
          simp only [List.cons_append, List.cons.injEq] at hab
          obtain ⟨rfl, hab2⟩ := hab
          have : hasDoubleHyphenSpec (d :: t) = true := ih.mpr ⟨xs, b, hab2⟩
          simp [hasDoubleHyphenSpec, this]

theorem containsSub_doubleHyphen_iff (s : String) :
    containsSub s "--" = true ↔ hasDoubleHyphenSpec s.toList = true := by
  unfold containsSub
  rw [splitFirst_isSome_iff, hasDoubleHyphenSpec_iff]
  have hp : ("--".toList : List Char) = ['-', '-'] := by decide
  rw [hp]
  constructor
  · rintro ⟨a, b, h⟩
    exact ⟨a, b, by simpa using h⟩
  · rintro ⟨a, b, h⟩
    exact ⟨a, b, by simpa using h⟩

theorem isPre_hyphen_iff (l : List Char) :
    isPre ['-'] l = true ↔ l.head? = some '-' := by
  cases l with
  | nil => simp [isPre]
  | cons b bs =>
    simp [isPre, eq_comm]

theorem isSuf_hyphen_iff (l : List Char) :
    isSuf ['-'] l = true ↔ l.getLast? = some '-' := by
  unfold isSuf
  have : (['-'] : List Char).reverse = ['-'] := rfl
  rw [this, isPre_hyphen_iff, List.head?_reverse]

theorem matchesNamePattern_iff (s : String) :
    matchesNamePattern s = true ↔
      s.toList ≠ []
      ∧ ∀ c ∈ s.toList, ('a' ≤ c ∧ c ≤ 'z') ∨ ('0' ≤ c ∧ c ≤ '9') ∨ c = '-' := by
  unfold matchesNamePattern
  simp only [Bool.and_eq_true, Bool.not_eq_true', List.isEmpty_eq_false_iff_exists_mem,
    List.all_eq_true]
  constructor
  · rintro ⟨⟨x, hx⟩, hall⟩
    refine ⟨by intro hnil; rw [hnil] at hx; simp at hx, fun c hc => ?_⟩
    have := hall c hc
    simpa [isNameChar, Bool.or_eq_true, Bool.and_eq_true, decide_eq_true_eq,
      or_assoc] using this
  · rintro ⟨hne, hall⟩
    refine ⟨?_, fun c hc => ?_⟩
    · cases hl : s.toList with
      | nil => exact absurd hl hne
      | cons x xs => exact ⟨x, by simp [hl]⟩
    · have := hall c hc
      simpa [isNameChar, Bool.or_eq_true, Bool.and_eq_true, decide_eq_true_eq,
        or_assoc] using this

theorem includesChar_iff (s : String) (c : Char) :
    includesChar s c = true ↔ c ∈ s.toList := by
  unfold includesChar
  simp [List.contains, List.elem_iff]

theorem strLength_eq_toList_length (s : String) : s.length = s.toList.length := rfl

/-! ## The JS split/join parser agrees with the first-colon parser -/

theorem splitAll_ne_nil (sep : Char) (l : List Char) : splitAll sep l ≠ [] := by
  cases l with
  | nil => simp [splitAll]
  | cons c cs =>
    simp only [splitAll]
    split
    · simp
    · cases splitAll sep cs with
      | nil => simp
      | cons h t => simp

theorem joinWith_splitAll (sep : Char) (l : List Char) :
    joinWith sep (splitAll sep l) = l := by
  induction l with
  | nil => rfl
  | cons c cs ih =>
    by_cases hc : c = sep
    · subst hc
      simp only [splitAll, if_pos rfl]
      cases hr : splitAll c cs with
      | nil => exact absurd hr (splitAll_ne_nil c cs)
      | cons h t =>
        rw [hr] at ih
        simp [joinWith, ih]
    · simp only [splitAll, if_neg hc]
      cases hr : splitAll sep cs with
      | nil => exact absurd hr (splitAll_ne_nil sep cs)
      | cons h t =>
        rw [hr] at ih
        cases t with
        | nil => simpa [joinWith] using congrArg (c :: ·) ih
        | cons y tt => simpa [joinWith] using congrArg (c :: ·) ih

theorem splitAll_length_iff_findColon (l : List Char) :
    2 ≤ (splitAll ':' l).length ↔ (findColon l).isSome = true := by
  induction l with
  | nil => simp [splitAll, findColon]
  | cons c cs ih =>
    by_cases hc : c = ':'
    · subst hc
      have h1 : 1 ≤ (splitAll ':' cs).length := by
        cases hr : splitAll ':' cs with
        | nil => exact absurd hr (splitAll_ne_nil ':' cs)
        | cons h t => simp
      have hs : splitAll ':' (':' :: cs) = [] :: splitAll ':' cs := by
        simp [splitAll]
      have hfc : findColon (':' :: cs) = some ([], cs) := by
        simp [findColon]
      rw [hs, hfc, List.length_cons]
      constructor
      · intro _
        simp
      · intro _
        omega
    · simp only [splitAll, if_neg hc, findColon, if_neg hc]
      cases hr : splitAll ':' cs with
      | nil => exact absurd hr (splitAll_ne_nil ':' cs)
      | cons h t =>
        rw [hr] at ih
        cases hf : findColon cs with
        | none =>
          rw [hf] at ih
          simp only [List.length_cons] at ih ⊢
          simp only [Option.isSome_none, Bool.false_eq_true, iff_false, not_le] at ih
          constructor
          · intro h2; omega
          · intro h2; simp at h2
        | some pr =>
          obtain ⟨a, b⟩ := pr
          rw [hf] at ih
          simp only [List.length_cons] at ih ⊢
          simp only [Option.isSome_some, iff_true] at ih
          constructor
          · intro _; simp
          · intro _; omega

theorem splitAll_parts_of_findColon (l k v : List Char) (h : findColon l = some (k, v)) :
    (splitAll ':' l).headD [] = k ∧ joinWith ':' ((splitAll ':' l).drop 1) = v := by
  induction l generalizing k v with
  | nil => simp [findColon] at h
  | cons c cs ih =>
    by_cases hc : c = ':'
    · subst hc
      simp only [findColon, if_pos rfl, Option.some.injEq, Prod.mk.injEq] at h
      obtain ⟨rfl, rfl⟩ := h
      simp only [splitAll, if_pos rfl, List.headD, List.drop]
      exact ⟨rfl, joinWith_splitAll ':' cs⟩
    · simp only [findColon, if_neg hc] at h
      cases hf : findColon cs with
      | none => rw [hf] at h; exact absurd h (by simp)
      | some pr =>
        obtain ⟨a, b⟩ := pr
        rw [hf] at h
        simp only [Option.some.injEq, Prod.mk.injEq] at h
        obtain ⟨rfl, rfl⟩ := h
        obtain ⟨iha, ihb⟩ := ih a b hf
        simp only [splitAll, if_neg hc]
        cases hr : splitAll ':' cs with
        | nil => exact absurd hr (splitAll_ne_nil ':' cs)
        | cons hh t =>
          rw [hr] at iha ihb
          simp only [List.headD, List.drop] at iha ihb ⊢
          exact ⟨by rw [iha], ihb⟩

theorem headerStep_eq_spec (fm : List (String × String)) (line : List Char) :
    headerStep fm line = headerStepSpec fm line := by
  unfold headerStep headerStepSpec
  by_cases hb : (trimChars line).isEmpty = true
  · have hguard : ((trimChars line).isEmpty || isPre ['#'] (trimChars line)) = true := by
      rw [hb, Bool.true_or]
    rw [if_pos hguard, if_pos (List.isEmpty_iff.mp hb)]
  · have hne : ¬(trimChars line = []) := fun he => hb (List.isEmpty_iff.mpr he)
    by_cases hcm : isPre ['#'] (trimChars line) = true
    · have hguard : ((trimChars line).isEmpty || isPre ['#'] (trimChars line)) = true := by
        rw [hcm, Bool.or_true]
      rw [if_pos hguard, if_neg hne, if_pos hcm]
    · have hb' : (trimChars line).isEmpty = false := by
        cases hh : (trimChars line).isEmpty
        · rfl
        · exact absurd hh hb
      have hcm' : isPre ['#'] (trimChars line) = false := by
        cases hh : isPre ['#'] (trimChars line)
        · rfl
        · exact absurd hh hcm
      have hgn : ¬(((trimChars line).isEmpty || isPre ['#'] (trimChars line)) = true) := by
        rw [hb', hcm']
        simp
      rw [if_neg hgn, if_neg hne, if_neg hcm]
      cases hf : findColon line with
      | none =>
        have h2 : ¬(2 ≤ (splitAll ':' line).length) := by
          rw [splitAll_length_iff_findColon, hf]
          simp
        rw [if_neg h2]
      | some kv =>
        obtain ⟨k, v⟩ := kv
        have h2 : 2 ≤ (splitAll ':' line).length := by
          rw [splitAll_length_iff_findColon, hf]
          simp
        obtain ⟨hk, hv⟩ := splitAll_parts_of_findColon line k v hf
        rw [if_pos h2, hk, hv]

theorem parseHeader_eq_spec (fmText : String) :
    parseHeader fmText = headerParserSpec fmText := by
  unfold parseHeader headerParserSpec
  have hfg : headerStep = headerStepSpec :=
    funext (fun fm => funext (fun line => headerStep_eq_spec fm line))
  rw [hfg]

/-! ## The nested-if validator equals the first-failing-rule scan -/

theorem filterMap_id_cons_none {α : Type} (l : List (Option α)) :
    List.filterMap id (none :: l) = List.filterMap id l :=
  List.filterMap_cons_none rfl

theorem filterMap_id_cons_some {α : Type} (x : α) (l : List (Option α)) :
    List.filterMap id (some x :: l) = x :: List.filterMap id l :=
  List.filterMap_cons_some rfl

theorem validateHeader_eq_firstSome (fm : List (String × String)) :
    validateHeader fm =
      ((List.filterMap id
        [ (if unexpectedKeysOf fm ≠ [] then
            some ⟨false, unexpectedMsg (unexpectedKeysOf fm)⟩ else none),
          (if nameValOf fm = "" then
            some ⟨false, "Missing 'name' in frontmatter"⟩ else none),
          (if descValOf fm = "" then
            some ⟨false, "Missing 'description' in frontmatter"⟩ else none),
          (if nameValOf fm ≠ "" ∧ !(matchesNamePattern (nameValOf fm)) then
            some ⟨false, nameShouldMsg (nameValOf fm)⟩ else none),
          (if nameValOf fm ≠ "" ∧ (isPre ['-'] (nameValOf fm).toList
              || isSuf ['-'] (nameValOf fm).toList || containsSub (nameValOf fm) "--") then
            some ⟨false, nameHyphenMsg (nameValOf fm)⟩ else none),
          (if nameValOf fm ≠ "" ∧ 64 < (nameValOf fm).length then
            some ⟨false, nameTooLongMsg (nameValOf fm)⟩ else none),
          (if descValOf fm ≠ "" ∧ (includesChar (descValOf fm) '<'
              || includesChar (descValOf fm) '>') then
            some ⟨false, "Description cannot contain angle brackets (< or >)"⟩ else none),
          (if descValOf fm ≠ "" ∧ 1024 < (descValOf fm).length then
            some ⟨false, descTooLongMsg (descValOf fm)⟩ else none) ]).head?).getD
        ⟨true, "Skill is valid!"⟩ := by
  by_cases h1 : unexpectedKeysOf fm ≠ []
  · simp only [validateHeader, if_pos h1, filterMap_id_cons_some]
    rfl
  · by_cases h2 : nameValOf fm = ""
    · simp only [validateHeader, if_neg h1, if_pos h2,
        filterMap_id_cons_none, filterMap_id_cons_some]
      rfl
    · by_cases h3 : descValOf fm = ""
      · simp only [validateHeader, if_neg h1, if_neg h2, if_pos h3,
          filterMap_id_cons_none, filterMap_id_cons_some]
        rfl
      · by_cases h4 : (!matchesNamePattern (nameValOf fm)) = true
        · simp only [validateHeader, if_neg h1, if_neg h2, if_neg h3, if_pos h4,
            if_pos (show nameValOf fm ≠ ""
              ∧ (!matchesNamePattern (nameValOf fm)) = true from ⟨h2, h4⟩),
            filterMap_id_cons_none, filterMap_id_cons_some]
          rfl
        · by_cases h5 : (isPre ['-'] (nameValOf fm).toList || isSuf ['-'] (nameValOf fm).toList
              || containsSub (nameValOf fm) "--") = true
          · simp only [validateHeader, if_neg h1, if_neg h2, if_neg h3, if_neg h4, if_pos h5,
              if_neg (fun hc : nameValOf fm ≠ "" ∧ _ => h4 hc.2),
              if_pos (show nameValOf fm ≠ ""
                ∧ (isPre ['-'] (nameValOf fm).toList || isSuf ['-'] (nameValOf fm).toList
                  || containsSub (nameValOf fm) "--") = true from ⟨h2, h5⟩),
              filterMap_id_cons_none, filterMap_id_cons_some]
            rfl
          · by_cases h6 : 64 < (nameValOf fm).length
            · simp only [validateHeader, if_neg h1, if_neg h2, if_neg h3, if_neg h4,
                if_neg h5, if_pos h6,
                if_neg (fun hc : nameValOf fm ≠ "" ∧ _ => h4 hc.2),
                if_neg (fun hc : nameValOf fm ≠ "" ∧ _ => h5 hc.2),
                if_pos (show nameValOf fm ≠ "" ∧ 64 < (nameValOf fm).length from ⟨h2, h6⟩),
                filterMap_id_cons_none, filterMap_id_cons_some]
              rfl
            · by_cases h7 : (includesChar (descValOf fm) '<'
                  || includesChar (descValOf fm) '>') = true
              · simp only [validateHeader, if_neg h1, if_neg h2, if_neg h3, if_neg h4,
                  if_neg h5, if_neg h6, if_pos h7,
                  if_neg (fun hc : nameValOf fm ≠ "" ∧ _ => h4 hc.2),
                  if_neg (fun hc : nameValOf fm ≠ "" ∧ _ => h5 hc.2),
                  if_neg (fun hc : nameValOf fm ≠ "" ∧ _ => h6 hc.2),
                  if_pos (show descValOf fm ≠ "" ∧ (includesChar (descValOf fm) '<'
                    || includesChar (descValOf fm) '>') = true from ⟨h3, h7⟩),
                  filterMap_id_cons_none, filterMap_id_cons_some]
                rfl
              · by_cases h8 : 1024 < (descValOf fm).length
                · simp only [validateHeader, if_neg h1, if_neg h2, if_neg h3, if_neg h4,
                    if_neg h5, if_neg h6, if_neg h7, if_pos h8,
                    if_neg (fun hc : nameValOf fm ≠ "" ∧ _ => h4 hc.2),
                    if_neg (fun hc : nameValOf fm ≠ "" ∧ _ => h5 hc.2),
                    if_neg (fun hc : nameValOf fm ≠ "" ∧ _ => h6 hc.2),
                    if_neg (fun hc : descValOf fm ≠ "" ∧ _ => h7 hc.2),
                    if_pos (show descValOf fm ≠ ""
                      ∧ 1024 < (descValOf fm).length from ⟨h3, h8⟩),
                    filterMap_id_cons_none, filterMap_id_cons_some]
                  rfl
                · simp only [validateHeader, if_neg h1, if_neg h2, if_neg h3, if_neg h4,
                    if_neg h5, if_neg h6, if_neg h7, if_neg h8,
                    if_neg (fun hc : nameValOf fm ≠ "" ∧ _ => h4 hc.2),
                    if_neg (fun hc : nameValOf fm ≠ "" ∧ _ => h5 hc.2),
                    if_neg (fun hc : nameValOf fm ≠ "" ∧ _ => h6 hc.2),
                    if_neg (fun hc : descValOf fm ≠ "" ∧ _ => h7 hc.2),
                    if_neg (fun hc : descValOf fm ≠ "" ∧ _ => h8 hc.2),
                    filterMap_id_cons_none]
                  rfl

theorem validateSkill_eq_firstViolation (m : ManifestState) :
    validateSkill m = firstViolation m := by
  cases m with
  | absent => rfl
  | unreadable e => rfl
  | readable content =>
    show validateContent content = firstViolation (.readable content)
    have hr1 : rule1Outcome (.readable content) = none := rfl
    have hr2 : rule2Outcome (.readable content) = none := rfl
    rcases validateContent_cases content with ⟨hv, h3⟩ | ⟨hv, h3, hd⟩ | ⟨fmText, rest, hd, hv⟩
    · have h3' : rule3Outcome (.readable content) = some ⟨false, "No YAML frontmatter found"⟩ := by
        simp only [rule3Outcome]
        rw [h3]
        rfl
      rw [hv]
      unfold firstViolation ruleOutcomes
      rw [hr1, hr2, h3', filterMap_id_cons_none, filterMap_id_cons_none,
        filterMap_id_cons_some]
      rfl
    · have h3' : rule3Outcome (.readable content) = some ⟨false, "Invalid frontmatter format"⟩ := by
        simp only [rule3Outcome]
        rw [h3, hd]
        rfl
      rw [hv]
      unfold firstViolation ruleOutcomes
      rw [hr1, hr2, h3', filterMap_id_cons_none, filterMap_id_cons_none,
        filterMap_id_cons_some]
      rfl
    · have h3' : rule3Outcome (.readable content) = none := by
        simp only [rule3Outcome]
        rw [isPre3_of_delimiterSplit content fmText rest hd, hd]
        rfl
      have hov : headerOf (.readable content) = some (parseHeader fmText) := by
        simp only [headerOf]
        rw [hd]
      rw [hv]
      unfold firstViolation ruleOutcomes
      rw [hr1, hr2, h3', hov]
      simp only [Option.some_bind]
      rw [filterMap_id_cons_none, filterMap_id_cons_none, filterMap_id_cons_none]
      exact validateHeader_eq_firstSome (parseHeader fmText)

theorem validateHeader_unexpected (fm : List (String × String))
    (hu : unexpectedKeysOf fm ≠ []) :
    validateHeader fm = ⟨false, unexpectedMsg (unexpectedKeysOf fm)⟩ := by
  unfold validateHeader
  rw [if_pos hu]

theorem nameValOf_eq_empty_iff (fm : List (String × String)) :
    nameValOf fm = "" ↔
      (lookupKV fm "name" = none ∨ lookupKV fm "name" = some "") := by
  unfold nameValOf
  cases h : lookupKV fm "name" with
  | none => simp
  | some v => simp [h]

theorem descValOf_eq_empty_iff (fm : List (String × String)) :
    descValOf fm = "" ↔
      (lookupKV fm "description" = none ∨ lookupKV fm "description" = some "") := by
  unfold descValOf
  cases h : lookupKV fm "description" with
  | none => simp
  | some v => simp [h]

theorem mkdirRecursive_mem (w : World) (p q : String) (h : q ∈ ancestorPaths p) :
    q ∈ (mkdirRecursive w p).dirs := by
  unfold mkdirRecursive
  by_cases hc : w.dirs.contains q = true
  · exact List.mem_append.mpr (Or.inl ((contains_eq_true_iff_mem _ _).mp hc))
  · have hc' : w.dirs.contains q = false := by
      cases hh : w.dirs.contains q
      · rfl
      · exact absurd hh hc
    refine List.mem_append.mpr (Or.inr (List.mem_filter.mpr ⟨h, ?_⟩))
    rw [hc']
    rfl

theorem packageSkill_validationFail (w : World) (zipErr : Option String)
    (skillPathArg : String) (outputDir : Option String)
    (hdir : resolvePath w.cwd skillPathArg ∈ w.dirs)
    (hmd : (lookupKV w.files (resolvePath w.cwd skillPathArg ++ "/SKILL.md")).isSome = true)
    (hval : (validateSkill (manifestStateOf w (resolvePath w.cwd skillPathArg))).valid = false) :
    packageSkill w zipErr skillPathArg outputDir
      = (.failure ("❌ Validation failed: "
          ++ (validateSkill (manifestStateOf w (resolvePath w.cwd skillPathArg))).message), w) := by
  have hc : w.dirs.contains (resolvePath w.cwd skillPathArg) = true :=
    (contains_eq_true_iff_mem _ _).mpr hdir
  obtain ⟨entry, he⟩ := Option.isSome_iff_exists.mp hmd
  simp [packageSkill, hc, he, hval, hdir]

/-! ## Extensional characterisation of the frontmatter regex -/

theorem delimiterSplit_sound (content fmText rest : String)
    (h : delimiterSplit content = some (fmText, rest)) :
    content.toList
      = ("---\n".toList) ++ fmText.toList ++ ("\n---".toList) ++ rest.toList := by
  unfold delimiterSplit at h
  by_cases hp : isPre ("---\n".toList) content.toList = true
  · rw [if_pos hp] at h
    cases hs : splitFirst ("\n---".toList) (content.toList.drop 4) with
    | none => rw [hs] at h; exact absurd h (by simp)
    | some pr =>
      obtain ⟨pre, post⟩ := pr
      rw [hs] at h
      simp only [Option.some.injEq, Prod.mk.injEq] at h
      obtain ⟨hf, hr⟩ := h
      subst hf
      subst hr
      have hdecomp := splitFirst_sound _ _ _ _ hs
      have hcontent := eq_append_drop_of_isPre _ _ hp
      have hlen : ("---\n".toList).length = 4 := rfl
      rw [hlen, hdecomp] at hcontent
      show content.toList
        = ("---\n".toList) ++ pre ++ ("\n---".toList) ++ post
      rw [hcontent]
      simp [List.append_assoc]
  · rw [if_neg hp] at h
    exact absurd h (by simp)

theorem delimiterSplit_min (content fmText rest : String)
    (h : delimiterSplit content = some (fmText, rest)) :
    ∀ a b : List Char,
      content.toList = ("---\n".toList) ++ a ++ ("\n---".toList) ++ b →
      fmText.toList.length ≤ a.length := by
  intro a b hab
  unfold delimiterSplit at h
  by_cases hp : isPre ("---\n".toList) content.toList = true
  · rw [if_pos hp] at h
    cases hs : splitFirst ("\n---".toList) (content.toList.drop 4) with
    | none => rw [hs] at h; exact absurd h (by simp)
    | some pr =>
      obtain ⟨pre, post⟩ := pr
      rw [hs] at h
      simp only [Option.some.injEq, Prod.mk.injEq] at h
      obtain ⟨hf, hr⟩ := h
      subst hf
      subst hr
      have hdrop : content.toList.drop 4 = a ++ ("\n---".toList) ++ b := by
        have e : content.toList
            = ("---\n".toList) ++ (a ++ ("\n---".toList) ++ b) := by
          rw [hab]
          simp [List.append_assoc]
        rw [e]
        have h4 : ("---\n".toList).length = 4 := rfl
        rw [← h4, List.drop_left]
      exact splitFirst_min _ _ _ _ hs a b hdrop
  · rw [if_neg hp] at h
    exact absurd h (by simp)

theorem delimiterSplit_isSome_of_decomp (content : String) (a b : List Char)
    (h : content.toList = ("---\n".toList) ++ a ++ ("\n---".toList) ++ b) :
    (delimiterSplit content).isSome = true := by
  have hp : isPre ("---\n".toList) content.toList = true := by
    rw [h]
    have := isPre_append ("---\n".toList) (a ++ (("\n---".toList) ++ b))
    simpa [List.append_assoc] using this
  have hdrop : content.toList.drop 4 = a ++ ("\n---".toList) ++ b := by
    have e : content.toList
        = ("---\n".toList) ++ (a ++ ("\n---".toList) ++ b) := by
      rw [h]
      simp [List.append_assoc]
    rw [e]
    have h4 : ("---\n".toList).length = 4 := rfl
    rw [← h4, List.drop_left]
  unfold delimiterSplit
  rw [if_pos hp]
  cases hs : splitFirst ("\n---".toList) (content.toList.drop 4) with
  | none =>
    rw [hdrop] at hs
    have := splitFirst_isSome_of_decomp ("\n---".toList) a b
    rw [hs] at this
    exact absurd this (by simp)
  | some pr => simp

theorem delimiterSplit_none_iff (content : String) :
    delimiterSplit content = none ↔
      ¬ ∃ a b : List Char,
        content.toList = ("---\n".toList) ++ a ++ ("\n---".toList) ++ b := by
  constructor
  · rintro hnone ⟨a, b, hab⟩
    have := delimiterSplit_isSome_of_decomp content a b hab
    rw [hnone] at this
    exact absurd this (by simp)
  · intro hne
    cases hs : delimiterSplit content with
    | none => rfl
    | some pr =>
      obtain ⟨fmText, rest⟩ := pr
      exact absurd ⟨fmText.toList, rest.toList,
        delimiterSplit_sound content fmText rest hs⟩ hne

/-! ## Claim theorems -/

/-- C5 counterexample: `"---x\nname: a\n---"` does not begin with the
delimiter on its own line (its first line is `"---x"`), yet validation
does not fail with "No YAML frontmatter found" (it fails with the
malformed-format message instead), refuting the claimed universal. -/
theorem C5_counterexample :
    String.mk ((splitAll '\n' "---x\nname: a\n---".toList).headD []) ≠ "---"
    ∧ validateContent "---x\nname: a\n---" ≠ ⟨false, "No YAML frontmatter found"⟩ := by
  constructor
  · decide
  · decide

/-- C5 (amended): validation fails with "No YAML frontmatter found"
exactly when the manifest text does not start with the three characters
`---`, whether or not they form a whole line; every text starting with
those three characters avoids this failure. -/
theorem C5_noYaml_iff (content : String) :
    validateContent content = ⟨false, "No YAML frontmatter found"⟩ ↔
      isPre ("---".toList) content.toList = false :=
  validateContent_noYaml_iff content

/-- C6: the header parser is exactly the spec's line-by-line flat
mapping — blank lines and `#` comments skipped, colon-free lines
silently ignored, every other line split at its first colon into
trimmed key and trimmed value (later colons kept in the value), one
wrapping quote pair stripped without escape processing — and when a
field name repeats, the mapping keeps the last occurrence's value while
other keys are untouched. -/
theorem C6_parser_follows_spec :
    (∀ fmText : String, parseHeader fmText = headerParserSpec fmText)
    ∧ (∀ (fm : List (String × String)) (k v : String),
        lookupKV (setKV fm k v) k = some v)
    ∧ (∀ (fm : List (String × String)) (k k' v : String), k' ≠ k →
        lookupKV (setKV fm k v) k' = lookupKV fm k') :=
  ⟨parseHeader_eq_spec, lookupKV_setKV_self,
    fun fm k k' v h => lookupKV_setKV_other fm k k' v h⟩

theorem C6_witness :
    lookupKV (setKV [("name", "a")] "name" "b") "description"
      = lookupKV [("name", "a")] "description" :=
  C6_parser_follows_spec.2.2 [("name", "a")] "name" "description" "b" (by decide)

/-- C7: the validator equals the first-failure scan over the spec's
rule list in its fixed order; in particular a header having both a
non-allow-listed field and a missing `name` is reported with the
unexpected-key failure (keys sorted lexicographically inside the
message builder), not the missing-name message. -/
theorem C7_rule_order :
    (∀ m : ManifestState, validateSkill m = firstViolation m)
    ∧ (∀ content fmText rest, delimiterSplit content = some (fmText, rest) →
        unexpectedKeysOf (parseHeader fmText) ≠ [] →
        lookupKV (parseHeader fmText) "name" = none →
        validateContent content
          = ⟨false, unexpectedMsg (unexpectedKeysOf (parseHeader fmText))⟩
        ∧ validateContent content ≠ ⟨false, "Missing 'name' in frontmatter"⟩) := by
  refine ⟨validateSkill_eq_firstViolation, fun content fmText rest hd hu hn => ?_⟩
  have hv := validateContent_of_delimiterSplit content fmText rest hd
  have hu' := validateHeader_unexpected (parseHeader fmText) hu
  refine ⟨by rw [hv, hu'], ?_⟩
  rw [hv, hu']
  exact result_ne_of_msg_take2 (by rw [unexpectedMsg_take2]; decide)

theorem C7_witness :
    validateContent "---\nauthor: x\n---"
      = ⟨false, unexpectedMsg (unexpectedKeysOf (parseHeader "author: x"))⟩
    ∧ validateContent "---\nauthor: x\n---" ≠ ⟨false, "Missing 'name' in frontmatter"⟩ :=
  C7_rule_order.2 "---\nauthor: x\n---" "author: x" "" (by decide) (by decide) (by decide)

/-- C9: `validateSkill` is a pure, read-only function of the manifest
file's presence and content: running it returns the file system
unchanged, its verdict depends only on what is stored at the
`SKILL.md` path, and a second run on the unmodified skill returns the
identical result. -/
theorem C9_validate_readOnly_idempotent :
    (∀ (w : World) (p : String), (validateSkillRun w p).2 = w)
    ∧ (∀ (w w' : World) (p : String),
        lookupKV w.files (p ++ "/SKILL.md") = lookupKV w'.files (p ++ "/SKILL.md") →
        (validateSkillRun w p).1 = (validateSkillRun w' p).1)
    ∧ (∀ (w : World) (p : String),
        (validateSkillRun ((validateSkillRun w p).2) p).1 = (validateSkillRun w p).1) := by
  refine ⟨fun w p => rfl, fun w w' p h => ?_, fun w p => rfl⟩
  unfold validateSkillRun manifestStateOf
  rw [h]

theorem C9_witness :
    (validateSkillRun ⟨[], [], "/"⟩ "/s").1 = (validateSkillRun ⟨["/x"], [], "/y"⟩ "/s").1 :=
  C9_validate_readOnly_idempotent.2.1 ⟨[], [], "/"⟩ ⟨["/x"], [], "/y"⟩ "/s" rfl

/-- C10: a trimmed value consisting of exactly one quote character is
stored as the empty string by the quote-stripping step, so a manifest
whose description line is `description: "` is rejected with the
missing-description message even though a description line is present. -/
theorem C10_lone_quote_value :
    (∀ c : Char, (c = '"' ∨ c = '\'') → stripQuotes (String.mk [c]) = "")
    ∧ lookupKV (parseHeader "name: a\ndescription: \"") "description" = some ""
    ∧ validateContent "---\nname: a\ndescription: \"\n---"
      = ⟨false, "Missing 'description' in frontmatter"⟩ := by
  refine ⟨?_, by decide, by decide⟩
  rintro c (rfl | rfl) <;> decide

theorem C10_witness : stripQuotes (String.mk ['"']) = "" :=
  C10_lone_quote_value.1 '"' (Or.inl rfl)

/-- C4 counterexample: the manifest `"---\nname:\ndescription: d\n---"`
has a `name` field in its parsed header (with empty value), yet
validation reports the missing-name message — so "whenever a name field
is present, rule 5 passes" fails on the code. -/
theorem C4_counterexample :
    lookupKV (parseHeader "name:\ndescription: d") "name" = some ""
    ∧ validateContent "---\nname:\ndescription: d\n---"
      = ⟨false, "Missing 'name' in frontmatter"⟩ := by
  constructor
  · decide
  · decide

/-- C4 (amended): the missing-name message appears exactly when the
header parses, passes the allow-list, and its `name` field is absent
or has the empty string as value (JS falsiness); analogously for
`description`, with `name` additionally present and nonempty. -/
theorem C4_missing_field_iff (content : String) :
    (validateContent content = ⟨false, "Missing 'name' in frontmatter"⟩ ↔
      ∃ fmText rest, delimiterSplit content = some (fmText, rest)
        ∧ unexpectedKeysOf (parseHeader fmText) = []
        ∧ (lookupKV (parseHeader fmText) "name" = none
          ∨ lookupKV (parseHeader fmText) "name" = some ""))
    ∧ (validateContent content = ⟨false, "Missing 'description' in frontmatter"⟩ ↔
      ∃ fmText rest, delimiterSplit content = some (fmText, rest)
        ∧ unexpectedKeysOf (parseHeader fmText) = []
        ∧ ¬(lookupKV (parseHeader fmText) "name" = none
          ∨ lookupKV (parseHeader fmText) "name" = some "")
        ∧ (lookupKV (parseHeader fmText) "description" = none
          ∨ lookupKV (parseHeader fmText) "description" = some "")) := by
  constructor
  · rw [validateContent_missingName_iff]
    refine exists_congr (fun fmText => exists_congr (fun rest => ?_))
    constructor
    · rintro ⟨hd, hu, hn⟩
      exact ⟨hd, hu, (nameValOf_eq_empty_iff _).mp hn⟩
    · rintro ⟨hd, hu, hn⟩
      exact ⟨hd, hu, (nameValOf_eq_empty_iff _).mpr hn⟩
  · rw [validateContent_missingDesc_iff]
    refine exists_congr (fun fmText => exists_congr (fun rest => ?_))
    constructor
    · rintro ⟨hd, hu, hn, hde⟩
      exact ⟨hd, hu, fun hc => hn ((nameValOf_eq_empty_iff _).mpr hc),
        (descValOf_eq_empty_iff _).mp hde⟩
    · rintro ⟨hd, hu, hn, hde⟩
      exact ⟨hd, hu, fun hc => hn ((nameValOf_eq_empty_iff _).mp hc),
        (descValOf_eq_empty_iff _).mpr hde⟩

/-- C3 counterexample: `"---\n---"` consists of an opening delimiter
line followed by a line that is exactly the delimiter, yet validation
fails with "Invalid frontmatter format" — the regex demands a newline
between the opening line and the closing dashes. -/
theorem C3_counterexample :
    (splitAll '\n' "---\n---".toList).map String.mk = ["---", "---"]
    ∧ validateContent "---\n---" = ⟨false, "Invalid frontmatter format"⟩ := by
  constructor
  · decide
  · decide

/-- C3 (amended): the "Invalid frontmatter format" failure occurs
exactly when the text starts with `---` but does not decompose as
`---` newline, capture, newline `---`, remainder; when it does so
decompose, the parsed header block is the text up to the first
newline-dashes occurrence — which need not be a whole line. -/
theorem C3_invalid_frontmatter (content : String) :
    (validateContent content = ⟨false, "Invalid frontmatter format"⟩ ↔
      isPre ("---".toList) content.toList = true
      ∧ ¬ ∃ a b : List Char,
          content.toList = ("---\n".toList) ++ a ++ ("\n---".toList) ++ b)
    ∧ (∀ fmText rest, delimiterSplit content = some (fmText, rest) →
        content.toList
          = ("---\n".toList) ++ fmText.toList ++ ("\n---".toList) ++ rest.toList
        ∧ ∀ a b : List Char,
            content.toList = ("---\n".toList) ++ a ++ ("\n---".toList) ++ b →
            fmText.toList.length ≤ a.length) := by
  constructor
  · rw [validateContent_invalid_iff]
    constructor
    · rintro ⟨h3, hnone⟩
      exact ⟨h3, (delimiterSplit_none_iff content).mp hnone⟩
    · rintro ⟨h3, hne⟩
      exact ⟨h3, (delimiterSplit_none_iff content).mpr hne⟩
  · intro fmText rest hd
    exact ⟨delimiterSplit_sound content fmText rest hd,
      delimiterSplit_min content fmText rest hd⟩

theorem C3_witness :
    "---\nk: v\n---x".toList
      = ("---\n".toList) ++ "k: v".toList ++ ("\n---".toList) ++ "x".toList
    ∧ ∀ a b : List Char,
        "---\nk: v\n---x".toList = ("---\n".toList) ++ a ++ ("\n---".toList) ++ b →
        "k: v".toList.length ≤ a.length :=
  (C3_invalid_frontmatter "---\nk: v\n---x").2 "k: v" "x" (by decide)

/-- C1 counterexample: a header with only allow-listed fields, a `name`
field and a `description` field whose value satisfies every constraint
of the claim (the empty string has no angle brackets and length 0), yet
validation returns `valid:false` — the claimed equivalence fails. -/
theorem C1_counterexample :
    delimiterSplit "---\nname: a\ndescription: \"\"\n---"
        = some ("name: a\ndescription: \"\"", "")
    ∧ (∀ k ∈ (parseHeader "name: a\ndescription: \"\"").map Prod.fst,
        k ∈ ALLOWED_PROPERTIES)
    ∧ lookupKV (parseHeader "name: a\ndescription: \"\"") "name" = some "a"
    ∧ lookupKV (parseHeader "name: a\ndescription: \"\"") "description" = some ""
    ∧ specNameOk "a"
    ∧ specDescOk ""
    ∧ (validateContent "---\nname: a\ndescription: \"\"\n---").valid = false := by
  exact ⟨by decide, by decide, by decide, by decide, by decide, by decide, by decide⟩

/-- C1 (amended): for a manifest whose parsed header contains only
allow-listed field names and has `name` and `description` fields with
a nonempty description value, validation succeeds iff the name matches
the anchored `[a-z0-9-]+` pattern without leading/trailing/double
hyphens and within 64 characters, and the description has no angle
bracket and at most 1024 characters. -/
theorem C1_valid_iff (content fmText rest nv dv : String)
    (hd : delimiterSplit content = some (fmText, rest))
    (hallow : ∀ k ∈ (parseHeader fmText).map Prod.fst, k ∈ ALLOWED_PROPERTIES)
    (hn : lookupKV (parseHeader fmText) "name" = some nv)
    (hdesc : lookupKV (parseHeader fmText) "description" = some dv)
    (hdne : dv ≠ "") :
    (validateContent content).valid = true ↔ (specNameOk nv ∧ specDescOk dv) := by
  rw [validateContent_of_delimiterSplit content fmText rest hd, validateHeader_valid_iff]
  have hu : unexpectedKeysOf (parseHeader fmText) = [] := by
    unfold unexpectedKeysOf
    refine List.filter_eq_nil_iff.mpr (fun k hk => ?_)
    have := hallow k hk
    rw [(contains_eq_true_iff_mem ALLOWED_PROPERTIES k).mpr this]
    simp
  have hnv : nameValOf (parseHeader fmText) = nv := by
    unfold nameValOf
    rw [hn]
    rfl
  have hdv : descValOf (parseHeader fmText) = dv := by
    unfold descValOf
    rw [hdesc]
    rfl
  rw [hu, hnv, hdv]
  unfold specNameOk specDescOk
  constructor
  · rintro ⟨-, hne, -, hm, hp1, hp2, hp3, hlen, ha1, ha2, hdlen⟩
    obtain ⟨hnnil, hchars⟩ := (matchesNamePattern_iff nv).mp hm
    refine ⟨⟨hnnil, hchars, ?_, ?_, ?_, ?_⟩, ?_, ?_, ?_⟩
    · intro hh
      rw [(isPre_hyphen_iff nv.toList).mpr hh] at hp1
      exact absurd hp1 (by simp)
    · intro hh
      rw [(isSuf_hyphen_iff nv.toList).mpr hh] at hp2
      exact absurd hp2 (by simp)
    · cases hdh : hasDoubleHyphenSpec nv.toList
      · rfl
      · rw [(containsSub_doubleHyphen_iff nv).mpr hdh] at hp3
        exact absurd hp3 (by simp)
    · rw [← strLength_eq_toList_length]
      omega
    · intro hmem
      rw [(includesChar_iff dv '<').mpr hmem] at ha1
      exact absurd ha1 (by simp)
    · intro hmem
      rw [(includesChar_iff dv '>').mpr hmem] at ha2
      exact absurd ha2 (by simp)
    · rw [← strLength_eq_toList_length]
      omega
  · rintro ⟨⟨hnnil, hchars, hh1, hh2, hdh, hnl⟩, hm1, hm2, hdl⟩
    have hne : nv ≠ "" := by
      intro he
      rw [he] at hnnil
      exact hnnil rfl
    refine ⟨rfl, hne, hdne, (matchesNamePattern_iff nv).mpr ⟨hnnil, hchars⟩,
      ?_, ?_, ?_, ?_, ?_, ?_, ?_⟩
    · cases hq : isPre ['-'] nv.toList
      · rfl
      · exact absurd ((isPre_hyphen_iff nv.toList).mp hq) hh1
    · cases hq : isSuf ['-'] nv.toList
      · rfl
      · exact absurd ((isSuf_hyphen_iff nv.toList).mp hq) hh2
    · cases hq : containsSub nv "--"
      · rfl
      · rw [(containsSub_doubleHyphen_iff nv).mp hq] at hdh
        exact absurd hdh (by simp)
    · rw [strLength_eq_toList_length]
      omega
    · cases hq : includesChar dv '<'
      · rfl
      · exact absurd ((includesChar_iff dv '<').mp hq) hm1
    · cases hq : includesChar dv '>'
      · rfl
      · exact absurd ((includesChar_iff dv '>').mp hq) hm2
    · rw [strLength_eq_toList_length]
      omega

theorem C1_witness :
    (validateContent "---\nname: my-skill\ndescription: ok\n---").valid = true
      ↔ (specNameOk "my-skill" ∧ specDescOk "ok") :=
  C1_valid_iff "---\nname: my-skill\ndescription: ok\n---"
    "name: my-skill\ndescription: ok" "" "my-skill" "ok"
    (by decide) (by decide) (by decide) (by decide) (by decide)

/-- C2 counterexample: a skill directory without `SKILL.md`.  The
validator's verdict on it is `valid:false` with "SKILL.md not found",
but the packager's own earlier manifest guard fires first and reports a
different, unprefixed message — the claim's message clause fails for
this directory. -/
theorem C2_counterexample :
    validateSkill (manifestStateOf ⟨["/s"], [], "/w"⟩ "/s")
      = ⟨false, "SKILL.md not found"⟩
    ∧ packageSkill ⟨["/s"], [], "/w"⟩ none "/s" none
      = (.failure ("❌ Error: SKILL.md not found in /s"), ⟨["/s"], [], "/w"⟩)
    ∧ ("❌ Error: SKILL.md not found in /s" : String)
      ≠ "❌ Validation failed: " ++ "SKILL.md not found" := by
  exact ⟨by decide, by decide, by decide⟩

/-- C2 (amended): for every skill directory containing `SKILL.md` on
which `validateSkill` returns `valid:false`, packaging aborts before
resolving any output path or invoking the archiver — the world comes
back unchanged (no artifact file, no directory created) and the
reported failure is the validator's message behind the
validation-stage prefix. -/
theorem C2_validation_gates_packaging (w : World) (zipErr : Option String)
    (skillPathArg : String) (outputDir : Option String) (msg : String)
    (hdir : resolvePath w.cwd skillPathArg ∈ w.dirs)
    (hmd : (lookupKV w.files (resolvePath w.cwd skillPathArg ++ "/SKILL.md")).isSome = true)
    (hval : validateSkill (manifestStateOf w (resolvePath w.cwd skillPathArg))
      = ⟨false, msg⟩) :
    packageSkill w zipErr skillPathArg outputDir
      = (.failure ("❌ Validation failed: " ++ msg), w) := by
  have h := packageSkill_validationFail w zipErr skillPathArg outputDir hdir hmd
    (by rw [hval])
  rw [h, hval]

theorem C2_witness :
    packageSkill ⟨["/s"], [("/s/SKILL.md", .readable "no frontmatter")], "/w"⟩
        none "/s" (some "/out")
      = (.failure ("❌ Validation failed: " ++ "No YAML frontmatter found"),
         ⟨["/s"], [("/s/SKILL.md", .readable "no frontmatter")], "/w"⟩) :=
  C2_validation_gates_packaging
    ⟨["/s"], [("/s/SKILL.md", .readable "no frontmatter")], "/w"⟩
    none "/s" (some "/out") "No YAML frontmatter found"
    (by decide) (by decide) (by decide)

/-- C8: every successful packaging run produces an artifact named
`<skill-directory-basename>.skill`; with an output directory argument
the artifact lands in that resolved directory, which now exists along
with all its ancestors, and without one it lands in the invoking
process's current working directory. -/
theorem C8_artifact_location (w : World) (zipErr : Option String)
    (skillPathArg : String) (outputDir : Option String) (art : String) (w' : World)
    (h : packageSkill w zipErr skillPathArg outputDir = (.success art, w')) :
    (∀ d, outputDir = some d →
      art = resolvePath w.cwd d ++ "/"
          ++ basename (resolvePath w.cwd skillPathArg) ++ ".skill"
      ∧ ∀ q ∈ ancestorPaths (resolvePath w.cwd d), q ∈ w'.dirs)
    ∧ (outputDir = none →
      art = w.cwd ++ "/" ++ basename (resolvePath w.cwd skillPathArg) ++ ".skill")
    ∧ (lookupKV w'.files art).isSome = true := by
  cases outputDir with
  | none =>
    cases zipErr with
    | some e =>
      simp only [packageSkill] at h
      split_ifs at h <;> simp_all
    | none =>
      simp only [packageSkill] at h
      split_ifs at h
      · simp_all
      · simp_all
      · simp_all
      · simp_all
      · simp only [Prod.mk.injEq, PackageOutcome.success.injEq] at h
        obtain ⟨hart, hw⟩ := h
        subst hart
        subst hw
        refine ⟨fun d hd => by simp at hd, fun _ => rfl, ?_⟩
        simp [lookupKV_setKV_self]
  | some d =>
    cases zipErr with
    | some e =>
      simp only [packageSkill] at h
      split_ifs at h <;> simp_all
    | none =>
      simp only [packageSkill] at h
      split_ifs at h
      · simp_all
      · simp_all
      · simp_all
      · simp_all
      · simp only [Prod.mk.injEq, PackageOutcome.success.injEq] at h
        obtain ⟨hart, hw⟩ := h
        subst hart
        subst hw
        refine ⟨fun d' hd' => ?_, fun hc => by simp at hc, ?_⟩
        · injection hd' with hdd
          subst hdd
          exact ⟨rfl, fun q hq => mkdirRecursive_mem w (resolvePath w.cwd d) q hq⟩
        · simp [lookupKV_setKV_self]

theorem C8_witness :
    (∀ d, (some "/out" : Option String) = some d →
      "/out/s.skill" = resolvePath "/w" d ++ "/"
          ++ basename (resolvePath "/w" "/s") ++ ".skill"
      ∧ ∀ q ∈ ancestorPaths (resolvePath "/w" d),
          q ∈ (⟨["/s", "/out"],
            [("/s/SKILL.md", .readable "---\nname: a\ndescription: b\n---"),
             ("/out/s.skill", .readable "zip-archive-of:/s")], "/w"⟩ : World).dirs)
    ∧ ((some "/out" : Option String) = none →
      "/out/s.skill" = "/w" ++ "/" ++ basename (resolvePath "/w" "/s") ++ ".skill")
    ∧ (lookupKV (⟨["/s", "/out"],
        [("/s/SKILL.md", .readable "---\nname: a\ndescription: b\n---"),
         ("/out/s.skill", .readable "zip-archive-of:/s")], "/w"⟩ : World).files
        "/out/s.skill").isSome = true :=
  C8_artifact_location
    ⟨["/s"], [("/s/SKILL.md", .readable "---\nname: a\ndescription: b\n---")], "/w"⟩
    none "/s" (some "/out") "/out/s.skill"
    ⟨["/s", "/out"],
      [("/s/SKILL.md", .readable "---\nname: a\ndescription: b\n---"),
       ("/out/s.skill", .readable "zip-archive-of:/s")], "/w"⟩
    (by decide)

end SkillTool
